import Mathlib

/-!
Shallow embedding of the clause-synthesis engine of `chalk-solve/src/clauses.rs`.

The module under verification contains:
  * `push_auto_trait_impls`            — the auto-trait synthesizer,
  * `program_clauses_that_could_match` — the goal clause matcher (with the
    helpers `match_ty` and `match_type_kind`),
  * `program_clauses_for_env`          — the environment clause elaborator
    (a fixpoint loop over hash sets),
  * `program_clauses_for_goal`         — the orchestration entry point.

The IR types (`Ty`, `DomainGoal`, `ProgramClause`, ...) and the collaborators
(the `RustIrDatabase` trait, the per-declaration `to_program_clauses`
translations, the environment-clause elaboration relation and the
`could_match` test) live outside the examined module; they are embedded here
as abstract data (a record of functions for the database, explicit function
parameters for the rest), with the variant structure the examined module
pattern-matches on taken from the specification's data model.

Rust `panic!`/`assert!` aborts are modelled by `Option`: a function that can
abort returns `none` exactly when the original panics.  The elaborator's
`while` loop is modelled by a fuel-indexed iterate `env_loop`; `fuel`
is a modelling device only, and we prove that the result is independent of
the fuel (any two sufficient fuels agree), so `some` results coincide with
the terminating runs of the original loop.  Rust's `FxHashSet` is modelled
by duplicate-free lists with insert-if-absent, which preserves the set
membership semantics the loop relies on.
-/

namespace Chalk

/-- Identifier of a trait declaration (opaque in the examined module). -/
abbrev TraitId := Nat

/-- Identifier of a struct declaration. -/
abbrev StructId := Nat

/-- Identifier of an associated-type declaration. -/
abbrev TypeId := Nat

/-- Identifier of an impl. -/
abbrev ImplId := Nat

/-- Modelled from the spec: "Type-kind id: identifies which declaration kind a
name resolves to: Trait, (associated) Type, or Struct." -/
inductive TypeKindId where
  | typeId (id : TypeId)
  | traitId (id : TraitId)
  | structId (id : StructId)
deriving DecidableEq, Repr

/-- Modelled from the spec: the head name of an applied type is "one of
{Trait id, Struct id, Associated-type id, Placeholder}". -/
inductive TypeName where
  | typeKindId (k : TypeKindId)
  | placeholder (idx : Nat)
  | associatedType (id : TypeId)
deriving DecidableEq, Repr

mutual
/-- Modelled from the spec: "Type: a closed tagged union: `Applied(name,
parameters)`, `Projection(associated-type id, parameters)`, `ForAll(inner
type under a quantifier)`, `UnselectedProjection`, `BoundVariable`,
`InferenceVariable`." -/
inductive Ty where
  | apply (a : ApplicationTy)
  | projection (associated_ty_id : TypeId) (parameters : Params)
  | unselectedProjection (name : Nat) (parameters : Params)
  | forAll (num_binders : Nat) (ty : Ty)
  | boundVar (depth : Nat)
  | inferenceVar (iv : Nat)
deriving DecidableEq, Repr

/-- Modelled from the spec: an applied type, a head name plus parameters. -/
inductive ApplicationTy where
  | mk (name : TypeName) (parameters : Params)
deriving DecidableEq, Repr

/-- A generic argument: a type or a lifetime.  The examined module asserts
(`assert_ty_ref`) that the first trait-reference parameter is a type. -/
inductive Parameter where
  | ty (t : Ty)
  | lifetime (lf : Nat)
deriving DecidableEq, Repr

/-- Parameter list of an applied/projected type (inlined list, part of the
mutual recursion with `Ty`). -/
inductive Params where
  | nil
  | cons (p : Parameter) (ps : Params)
deriving DecidableEq, Repr
end

/-- Head name of an applied type. -/
def ApplicationTy.name : ApplicationTy → TypeName
  | .mk n _ => n

/-- Modelled from the spec: "Trait reference: a trait identifier plus an
ordered parameter list whose first element is the Self type." -/
structure TraitRef where
  trait_id : TraitId
  parameters : List Parameter
deriving DecidableEq, Repr

/-- A projection type: an associated-type id applied to parameters. -/
structure ProjectionTy where
  associated_ty_id : TypeId
  parameters : List Parameter
deriving DecidableEq, Repr

/-- A projection-equality / normalization predicate: `projection = ty`. -/
structure ProjectionPredicate where
  projection : ProjectionTy
  ty : Ty
deriving DecidableEq, Repr

/-- Modelled from the spec: `UnselectedNormalize(projection-on-type)`; the
examined module only reads its `ty` component. -/
structure UnselectedNormalizeGoal where
  name : Nat
  ty : Ty
deriving DecidableEq, Repr

/-- Modelled from the spec: `Where-clause` is "`Implemented(trait-ref)` or
`ProjectionEq(projection-predicate)`". -/
inductive WhereClause where
  | implemented (trait_ref : TraitRef)
  | projectionEq (p : ProjectionPredicate)
deriving DecidableEq, Repr

/-- Well-formedness payload: `Trait(trait-ref)` or `Ty(type)`. -/
inductive WellFormed where
  | trait (trait_ref : TraitRef)
  | ty (t : Ty)
deriving DecidableEq, Repr

/-- Payload of a `FromEnv` goal (mirrors `WellFormed`; the examined module
never inspects it). -/
inductive FromEnv where
  | trait (trait_ref : TraitRef)
  | ty (t : Ty)
deriving DecidableEq, Repr

/-- Modelled from the spec: "Domain goal: a closed tagged union of
proposition shapes". -/
inductive DomainGoal where
  | holds (wc : WhereClause)
  | wellFormed (wf : WellFormed)
  | fromEnv (fe : FromEnv)
  | normalize (p : ProjectionPredicate)
  | unselectedNormalize (n : UnselectedNormalizeGoal)
  | isUpstream (t : Ty)
  | isFullyVisible (t : Ty)
  | isLocal (t : Ty)
  | downstreamType (t : Ty)
  | inScope (k : TypeKindId)
  | localImplAllowed (trait_ref : TraitRef)
  | compatible
deriving DecidableEq, Repr

/-- Kind of a bound generic parameter (type or lifetime). -/
inductive ParameterKind where
  | ty
  | lifetime
deriving DecidableEq, Repr

/-- A value quantified over a list of generic-parameter binders. -/
structure Binders (α : Type) where
  binders : List ParameterKind
  value : α
deriving DecidableEq, Repr

/-- `Binders::map_ref`: transform the bound value, keeping the binders. -/
def Binders.map_ref (b : Binders α) (f : α → β) : Binders β :=
  { binders := b.binders, value := f b.value }

/-- Modelled from the spec: "Program clause: a universally-quantified Horn
implication: one consequence (a domain goal) and an ordered sequence of
conditions (domain goals), quantified over a binder list." -/
structure ProgramClauseImplication where
  consequence : DomainGoal
  conditions : List DomainGoal
deriving DecidableEq, Repr

/-- A program clause: implication under binders. -/
abbrev ProgramClause := Binders ProgramClauseImplication

/-- Modelled from the spec: "Environment: an immutable, shared snapshot of
assumed clauses in scope for the current proof." -/
structure Environment where
  clauses : List ProgramClause
deriving DecidableEq, Repr

/-- Contents of a trait declaration under its binders: its own trait
reference and the auto flag (the only parts the examined module reads). -/
structure TraitDatumBound where
  trait_ref : TraitRef
  auto : Bool
deriving DecidableEq, Repr

/-- A trait declaration record. -/
structure TraitDatum where
  binders : Binders TraitDatumBound
deriving DecidableEq, Repr

/-- `TraitDatum::is_auto_trait`. -/
def TraitDatum.is_auto_trait (d : TraitDatum) : Bool :=
  d.binders.value.auto

/-- Contents of a struct declaration under its binders: its self type
(the struct applied to its own generic parameters) and its field types, in
declaration order. -/
structure StructDatumBound where
  self_ty : ApplicationTy
  fields : List Ty
deriving DecidableEq, Repr

/-- A struct declaration record. -/
structure StructDatum where
  binders : Binders StructDatumBound
deriving DecidableEq, Repr

/-- The database collaborator (`RustIrDatabase`) together with the
out-of-scope translation and elaboration collaborators, embedded as a record
of functions.  `impl_clauses`, `associated_ty_clauses`, `trait_clauses` and
`struct_clauses` are the clause lists appended by the corresponding
`to_program_clauses` translations (modelled from the spec: each declaration
kind "appends zero or more program clauses to an output sequence").
`expandClause` is the elaboration collaborator (modelled from the spec:
"given one assumed clause, returns the sequence of clauses it directly
implies"). -/
structure RustIrDatabase where
  trait_datum : TraitId → TraitDatum
  struct_datum : StructId → StructDatum
  impls_for_trait : TraitId → List ImplId
  impl_provided_for : TraitId → StructId → Bool
  impl_clauses : ImplId → List ProgramClause
  associated_ty_clauses : TypeId → List ProgramClause
  trait_clauses : TraitId → List ProgramClause
  struct_clauses : StructId → List ProgramClause
  expandClause : ProgramClause → List ProgramClause

/-- `push_auto_trait_impls` from `clauses.rs`.  The two `assert!`s are
modelled by returning `none`; otherwise the function returns the (possibly
extended) output vector.  The pushed clause is built exactly as in the
source: `map_ref` over the struct's binders, consequence
`Struct<..>: AutoTrait` (the trait id taken from the trait's own
`trait_ref`, the self type from the struct's `self_ty`), one condition per
field, each `FieldTy: AutoTrait`. -/
def push_auto_trait_impls (auto_trait_id : TraitId) (struct_id : StructId)
    (program : RustIrDatabase) (vec : List ProgramClause) :
    Option (List ProgramClause) :=
  let auto_trait := program.trait_datum auto_trait_id
  let struct_datum := program.struct_datum struct_id
  -- Must be an auto trait.
  if !auto_trait.is_auto_trait then none
  -- Auto traits never have generic parameters of their own (apart from `Self`).
  else if auto_trait.binders.binders.length ≠ 1 then none
  -- If an impl is provided for this (trait, struct), generate no rules.
  else if program.impl_provided_for auto_trait_id struct_id then some vec
  else
    let auto_trait_ref : TraitRef :=
      { trait_id := auto_trait.binders.value.trait_ref.trait_id,
        parameters := [Parameter.ty (Ty.apply struct_datum.binders.value.self_ty)] }
    some (vec ++
      [struct_datum.binders.map_ref (fun struct_contents =>
        { consequence := DomainGoal.holds (WhereClause.implemented auto_trait_ref),
          conditions := struct_contents.fields.map (fun field_ty =>
            DomainGoal.holds (WhereClause.implemented
              { trait_id := auto_trait_id,
                parameters := [Parameter.ty field_ty] })) })])

/-- `match_type_kind` from `clauses.rs`. -/
def match_type_kind (db : RustIrDatabase) (type_kind_id : TypeKindId)
    (clauses : List ProgramClause) : List ProgramClause :=
  match type_kind_id with
  | .typeId type_id => clauses ++ db.associated_ty_clauses type_id
  | .traitId trait_id => clauses ++ db.trait_clauses trait_id
  | .structId struct_id => clauses ++ db.struct_clauses struct_id

/-- `match_ty` from `clauses.rs`. -/
def match_ty (db : RustIrDatabase) (ty : Ty) (clauses : List ProgramClause) :
    List ProgramClause :=
  match ty with
  | .apply (.mk name _) =>
    match name with
    | .typeKindId type_kind_id => match_type_kind db type_kind_id clauses
    | .placeholder _ => clauses
    | .associatedType type_id => clauses ++ db.associated_ty_clauses type_id
  | .projection associated_ty_id _ => clauses ++ db.associated_ty_clauses associated_ty_id
  | .forAll _ t => match_ty db t clauses
  | .unselectedProjection _ _ => clauses
  | .boundVar _ => clauses
  | .inferenceVar _ => clauses

/-- `program_clauses_that_could_match` from `clauses.rs`.  In the
`Holds(Implemented(..))` arm the source evaluates
`trait_ref.parameters[0].assert_ty_ref()` when the trait is auto: indexing an
empty parameter list or asserting on a lifetime parameter panics, modelled by
`none`; `push_auto_trait_impls` may also abort. -/
def program_clauses_that_could_match (db : RustIrDatabase) (goal : DomainGoal)
    (clauses : List ProgramClause) : Option (List ProgramClause) :=
  match goal with
  | .holds (.implemented trait_ref) =>
    let trait_id := trait_ref.trait_id
    let clauses := (db.impls_for_trait trait_id).foldl
      (fun acc impl_id => acc ++ db.impl_clauses impl_id) clauses
    let trait_datum := db.trait_datum trait_id
    if trait_datum.is_auto_trait then
      match trait_ref.parameters.head? with
      | none => none
      | some (.lifetime _) => none
      | some (.ty t) =>
        match t with
        | .apply a =>
          match a.name with
          | .typeKindId (.structId struct_id) =>
            push_auto_trait_impls trait_id struct_id db clauses
          | _ => some clauses
        | _ => some clauses
    else
      some clauses
  | .holds (.projectionEq projection_predicate) =>
    some (clauses ++ db.associated_ty_clauses projection_predicate.projection.associated_ty_id)
  | .wellFormed (.trait trait_predicate) =>
    some (clauses ++ db.trait_clauses trait_predicate.trait_id)
  | .wellFormed (.ty ty) => some (match_ty db ty clauses)
  | .isUpstream ty => some (match_ty db ty clauses)
  | .downstreamType ty => some (match_ty db ty clauses)
  | .isFullyVisible ty => some (match_ty db ty clauses)
  | .isLocal ty => some (match_ty db ty clauses)
  | .fromEnv _ => some clauses
  | .normalize projection_predicate =>
    some (clauses ++ db.associated_ty_clauses projection_predicate.projection.associated_ty_id)
  | .unselectedNormalize n => some (match_ty db n.ty clauses)
  | .inScope type_kind_id => some (match_type_kind db type_kind_id clauses)
  | .localImplAllowed trait_ref => some (clauses ++ db.trait_clauses trait_ref.trait_id)
  | .compatible => some clauses

/-- Insert-if-absent into a duplicate-free list: `HashSet::insert`. -/
def set_insert (s : List ProgramClause) (c : ProgramClause) : List ProgramClause :=
  if c ∈ s then s else s ++ [c]

/-- Modelled from the spec: `elaborate_env_clauses` (the elaboration
collaborator applied clause-by-clause, accumulating the directly implied
clauses into the output set). -/
def expand_env_clauses (db : RustIrDatabase) (clauses : List ProgramClause)
    (s : List ProgramClause) : List ProgramClause :=
  clauses.foldl (fun acc c => (db.expandClause c).foldl set_insert acc) s

/-- The body of `next_round.drain().filter(|c| closure.insert(c.clone()))`:
the sub-list of `next` whose elements were not yet in `closure`, each
inserted into `closure` as it is examined. -/
def round_new (closure : List ProgramClause) : List ProgramClause → List ProgramClause
  | [] => []
  | c :: rest =>
    if c ∈ closure then round_new closure rest
    else c :: round_new (closure ++ [c]) rest

/-- The `while !last_round.is_empty()` loop of `program_clauses_for_env`,
indexed by fuel (`none` = the fuel ran out before the loop converged; the
original loop has no fuel, so its terminating runs are exactly the `some`
results, which we prove independent of the fuel). -/
def env_loop (db : RustIrDatabase) :
    Nat → List ProgramClause → List ProgramClause → Option (List ProgramClause)
  | 0, closure, last_round => if last_round.isEmpty then some closure else none
  | fuel + 1, closure, last_round =>
    if last_round.isEmpty then some closure
    else
      let next_round := expand_env_clauses db last_round []
      let new := round_new closure next_round
      env_loop db fuel (closure ++ new) new

/-- The closure computed by `program_clauses_for_env` before it is appended
to the output vector: round 0 seeds both the closure and the frontier. -/
def env_closure (db : RustIrDatabase) (environment : Environment) (fuel : Nat) :
    Option (List ProgramClause) :=
  let last_round := expand_env_clauses db environment.clauses []
  env_loop db fuel last_round last_round

/-- `program_clauses_for_env` from `clauses.rs`: compute the elaboration
closure of the environment's clauses and extend `clauses` with it. -/
def program_clauses_for_env (db : RustIrDatabase) (environment : Environment)
    (clauses : List ProgramClause) (fuel : Nat) : Option (List ProgramClause) :=
  (env_closure db environment fuel).map (fun closure => clauses ++ closure)

/-- `program_clauses_for_goal` from `clauses.rs`: database-derived clauses,
then environment-derived clauses, then `retain(|c| c.could_match(goal))`.
`could_match` (defined outside the examined module) is passed as an abstract
syntactic compatibility test. -/
def program_clauses_for_goal (db : RustIrDatabase)
    (could_match : ProgramClause → DomainGoal → Bool)
    (environment : Environment) (goal : DomainGoal) (fuel : Nat) :
    Option (List ProgramClause) :=
  match program_clauses_that_could_match db goal [] with
  | none => none
  | some vec =>
    match program_clauses_for_env db environment vec fuel with
    | none => none
    | some vec => some (vec.filter (fun c => could_match c goal))

/-- Clauses derivable from the assumed `seeds` by one or more applications
of the elaboration relation. -/
inductive EnvReachable (db : RustIrDatabase) (seeds : List ProgramClause) :
    ProgramClause → Prop
  | base {c d : ProgramClause} : c ∈ seeds → d ∈ db.expandClause c →
      EnvReachable db seeds d
  | step {c d : ProgramClause} : EnvReachable db seeds c → d ∈ db.expandClause c →
      EnvReachable db seeds d

/-! ### Concrete fixtures for the examples of the specification -/

/-- A concrete clause (`Compatible :- .`), the clause `A` of the elaboration
example. -/
def cA : ProgramClause := ⟨[], ⟨DomainGoal.compatible, []⟩⟩

/-- A second concrete clause, distinct from `cA`, the clause `B` of the
elaboration example. -/
def cB : ProgramClause := ⟨[], ⟨DomainGoal.holds (WhereClause.implemented ⟨0, []⟩), []⟩⟩

/-- A trait declaration that is not auto and binds no parameters. -/
def trivialTraitDatum : TraitDatum := ⟨⟨[], ⟨⟨0, []⟩, false⟩⟩⟩

/-- The auto trait `Marker` of the examples: auto, exactly one binder, its
own trait reference naming trait id 0. -/
def markerTraitDatum : TraitDatum := ⟨⟨[ParameterKind.ty], ⟨⟨0, []⟩, true⟩⟩⟩

/-- The struct `Pair<T, U> { a : T, b : U }` of the examples: two type
binders, self type `Pair<T, U>` (struct id 0 applied to the two bound
variables), two fields `T` and `U` in declaration order. -/
def pairStructDatum : StructDatum :=
  ⟨⟨[ParameterKind.ty, ParameterKind.ty],
    ⟨ApplicationTy.mk (TypeName.typeKindId (TypeKindId.structId 0))
      (Params.cons (Parameter.ty (Ty.boundVar 0))
        (Params.cons (Parameter.ty (Ty.boundVar 1)) Params.nil)),
     [Ty.boundVar 0, Ty.boundVar 1]⟩⟩⟩

/-- A database with no declarations of interest: nothing is auto, there are
no impls, all translations produce no clauses, and the elaboration relation
implies nothing. -/
def db0 : RustIrDatabase :=
  { trait_datum := fun _ => trivialTraitDatum,
    struct_datum := fun _ => pairStructDatum,
    impls_for_trait := fun _ => [],
    impl_provided_for := fun _ _ => false,
    impl_clauses := fun _ => [],
    associated_ty_clauses := fun _ => [],
    trait_clauses := fun _ => [],
    struct_clauses := fun _ => [],
    expandClause := fun _ => [] }

/-- The database of the auto-trait examples: every trait id names the auto
trait `Marker`, every struct id names `Pair<T,U>`, and an explicit impl is
reported exactly for struct id 1. -/
def dbAuto : RustIrDatabase :=
  { db0 with
    trait_datum := fun _ => markerTraitDatum,
    impl_provided_for := fun _ s => decide (s = 1) }

/-- The database of the elaboration-closure example: the elaboration
relation maps `cA` to `cB` and `cB` back to `cA`, and implies nothing for
any other clause. -/
def dbAB : RustIrDatabase :=
  { db0 with
    expandClause := fun c => if c = cA then [cB] else if c = cB then [cA] else [] }

/-! ### Properties of the set machinery -/

lemma mem_set_insert {s : List ProgramClause} {c d : ProgramClause} :
    c ∈ set_insert s d ↔ c ∈ s ∨ c = d := by
  unfold set_insert
  split
  · next hd =>
    constructor
    · exact Or.inl
    · rintro (h | rfl)
      · exact h
      · exact hd
  · simp

lemma set_insert_nodup {s : List ProgramClause} (h : s.Nodup) (c : ProgramClause) :
    (set_insert s c).Nodup := by
  unfold set_insert
  split
  · exact h
  · next hc => simp [List.nodup_append, h, hc]

lemma mem_foldl_set_insert (l : List ProgramClause) :
    ∀ (s : List ProgramClause) (c : ProgramClause),
      c ∈ l.foldl set_insert s ↔ c ∈ s ∨ c ∈ l := by
  induction l with
  | nil => simp
  | cons a l ih =>
    intro s c
    rw [List.foldl_cons, ih, mem_set_insert]
    simp [or_assoc, or_comm, or_left_comm]

lemma foldl_set_insert_nodup (l : List ProgramClause) :
    ∀ (s : List ProgramClause), s.Nodup → (l.foldl set_insert s).Nodup := by
  induction l with
  | nil => intro s hs; exact hs
  | cons a l ih =>
    intro s hs
    rw [List.foldl_cons]
    exact ih _ (set_insert_nodup hs a)

lemma mem_expand_env_clauses (db : RustIrDatabase) (l : List ProgramClause) :
    ∀ (s : List ProgramClause) (c : ProgramClause),
      c ∈ expand_env_clauses db l s ↔ c ∈ s ∨ ∃ d ∈ l, c ∈ db.expandClause d := by
  induction l with
  | nil => simp [expand_env_clauses]
  | cons a l ih =>
    intro s c
    unfold expand_env_clauses at ih ⊢
    rw [List.foldl_cons, ih, mem_foldl_set_insert]
    simp [or_assoc]

lemma expand_env_clauses_nodup (db : RustIrDatabase) (l : List ProgramClause) :
    ∀ (s : List ProgramClause), s.Nodup → (expand_env_clauses db l s).Nodup := by
  induction l with
  | nil => intro s hs; exact hs
  | cons a l ih =>
    intro s hs
    unfold expand_env_clauses at ih ⊢
    rw [List.foldl_cons]
    exact ih _ (foldl_set_insert_nodup _ _ hs)

lemma round_new_mem (next : List ProgramClause) :
    ∀ (closure : List ProgramClause) (c : ProgramClause),
      c ∈ round_new closure next → c ∈ next ∧ c ∉ closure := by
  induction next with
  | nil => intro closure c h; simp [round_new] at h
  | cons a rest ih =>
    intro closure c h
    unfold round_new at h
    split at h
    · next ha =>
      obtain ⟨h1, h2⟩ := ih closure c h
      exact ⟨List.mem_cons_of_mem a h1, h2⟩
    · next ha =>
      rcases List.mem_cons.mp h with rfl | h
      · exact ⟨List.mem_cons_self _ _, ha⟩
      · obtain ⟨h1, h2⟩ := ih (closure ++ [a]) c h
        refine ⟨List.mem_cons_of_mem a h1, fun hc => h2 ?_⟩
        exact List.mem_append_left _ hc

lemma round_new_append_mem (next : List ProgramClause) :
    ∀ (closure : List ProgramClause) (c : ProgramClause),
      c ∈ closure ++ round_new closure next ↔ c ∈ closure ∨ c ∈ next := by
  induction next with
  | nil => simp [round_new]
  | cons a rest ih =>
    intro closure c
    unfold round_new
    split
    · next ha =>
      rw [ih]
      constructor
      · rintro (h | h)
        · exact Or.inl h
        · exact Or.inr (List.mem_cons_of_mem a h)
      · rintro (h | h)
        · exact Or.inl h
        · rcases List.mem_cons.mp h with rfl | h
          · exact Or.inl ha
          · exact Or.inr h
    · next ha =>
      have step : c ∈ closure ++ a :: round_new (closure ++ [a]) rest ↔
          c ∈ (closure ++ [a]) ++ round_new (closure ++ [a]) rest := by
        simp [or_assoc]
      rw [step, ih]
      simp [or_assoc]

lemma round_new_append_nodup (next : List ProgramClause) :
    ∀ (closure : List ProgramClause), closure.Nodup →
      (closure ++ round_new closure next).Nodup := by
  induction next with
  | nil => intro closure h; simpa [round_new] using h
  | cons a rest ih =>
    intro closure h
    unfold round_new
    split
    · exact ih closure h
    · next ha =>
      have : closure ++ a :: round_new (closure ++ [a]) rest =
          (closure ++ [a]) ++ round_new (closure ++ [a]) rest := by
        simp
      rw [this]
      exact ih (closure ++ [a]) (by simp [List.nodup_append, h, ha])

/-! ### Properties of the fixpoint loop -/

lemma env_loop_nil (db : RustIrDatabase) (fuel : Nat) (closure : List ProgramClause) :
    env_loop db fuel closure [] = some closure := by
  cases fuel <;> simp [env_loop]

lemma env_loop_succ (db : RustIrDatabase) (fuel : Nat) :
    ∀ (closure last r : List ProgramClause),
      env_loop db fuel closure last = some r →
      env_loop db (fuel + 1) closure last = some r := by
  induction fuel with
  | zero =>
    intro closure last r h
    simp only [env_loop] at h ⊢
    split at h
    · next hl => simp only [hl, if_pos]; exact h
    · exact absurd h (by simp)
  | succ f ih =>
    intro closure last r h
    by_cases hl : last.isEmpty
    · simp only [env_loop, hl, if_pos] at h ⊢
      exact h
    · simp only [env_loop, hl, if_neg, Bool.false_eq_true, not_false_iff] at h ⊢
      exact ih _ _ _ h

lemma env_loop_mono (db : RustIrDatabase) {f f' : Nat} (hle : f ≤ f') :
    ∀ (closure last r : List ProgramClause),
      env_loop db f closure last = some r →
      env_loop db f' closure last = some r := by
  induction hle with
  | refl => intro closure last r h; exact h
  | step _ ih =>
    intro closure last r h
    exact env_loop_succ db _ _ _ _ (ih _ _ _ h)

lemma env_loop_det (db : RustIrDatabase) {f1 f2 : Nat}
    {closure last r1 r2 : List ProgramClause}
    (h1 : env_loop db f1 closure last = some r1)
    (h2 : env_loop db f2 closure last = some r2) : r1 = r2 := by
  rcases Nat.le_total f1 f2 with hle | hle
  · have h1m := env_loop_mono db hle _ _ _ h1
    rw [h1m] at h2
    exact Option.some_inj.mp h2
  · have h2m := env_loop_mono db hle _ _ _ h2
    rw [h2m] at h1
    exact (Option.some_inj.mp h1).symm

lemma env_loop_sound (db : RustIrDatabase) (R : ProgramClause → Prop)
    (hR : ∀ c d, R c → d ∈ db.expandClause c → R d) (fuel : Nat) :
    ∀ (closure last r : List ProgramClause),
      (∀ c ∈ closure, R c) → (∀ c ∈ last, R c) →
      env_loop db fuel closure last = some r → ∀ c ∈ r, R c := by
  induction fuel with
  | zero =>
    intro closure last r hc hl h
    simp only [env_loop] at h
    split at h
    · cases h; exact hc
    · exact absurd h (by simp)
  | succ f ih =>
    intro closure last r hc hl h
    by_cases hempty : last.isEmpty
    · simp only [env_loop, hempty, if_pos] at h
      cases h; exact hc
    · simp only [env_loop, hempty, if_neg, Bool.false_eq_true, not_false_iff] at h
      have hnext : ∀ c ∈ expand_env_clauses db last [], R c := by
        intro c hcmem
        rcases (mem_expand_env_clauses db last [] c).mp hcmem with h0 | ⟨d, hd, hcd⟩
        · simp at h0
        · exact hR d c (hl d hd) hcd
      have hnew : ∀ c ∈ round_new closure (expand_env_clauses db last []), R c := by
        intro c hcmem
        exact hnext c (round_new_mem _ _ _ hcmem).1
      refine ih _ _ _ ?_ hnew h
      intro c hcmem
      rcases List.mem_append.mp hcmem with h0 | h0
      · exact hc c h0
      · exact hnew c h0

lemma nodup_length_le {l L : List ProgramClause} (hn : l.Nodup)
    (hs : ∀ c ∈ l, c ∈ L) : l.length ≤ L.length := by
  calc l.length = l.toFinset.card := (List.toFinset_card_of_nodup hn).symm
    _ ≤ L.toFinset.card := by
        apply Finset.card_le_card
        intro x hx
        rw [List.mem_toFinset] at hx ⊢
        exact hs x hx
    _ ≤ L.length := L.toFinset_card_le

lemma env_loop_terminates (db : RustIrDatabase) (L : List ProgramClause)
    (R : ProgramClause → Prop)
    (hR : ∀ c d, R c → d ∈ db.expandClause c → R d)
    (hL : ∀ c, R c → c ∈ L) (fuel : Nat) :
    ∀ (closure last : List ProgramClause), closure.Nodup →
      (∀ c ∈ closure, R c) → (∀ c ∈ last, R c) →
      L.length + 1 ≤ closure.length + fuel →
      ∃ r, env_loop db fuel closure last = some r := by
  induction fuel with
  | zero =>
    intro closure last hnodup hc hl hbound
    have : closure.length ≤ L.length := nodup_length_le hnodup (fun c hcm => hL c (hc c hcm))
    omega
  | succ f ih =>
    intro closure last hnodup hc hl hbound
    by_cases hempty : last.isEmpty
    · exact ⟨closure, by simp only [env_loop, hempty, if_pos]⟩
    · have hnext : ∀ c ∈ expand_env_clauses db last [], R c := by
        intro c hcmem
        rcases (mem_expand_env_clauses db last [] c).mp hcmem with h0 | ⟨d, hd, hcd⟩
        · simp at h0
        · exact hR d c (hl d hd) hcd
      have hnew : ∀ c ∈ round_new closure (expand_env_clauses db last []), R c := by
        intro c hcmem
        exact hnext c (round_new_mem _ _ _ hcmem).1
      have hclosure : ∀ c ∈ closure ++ round_new closure (expand_env_clauses db last []), R c := by
        intro c hcmem
        rcases List.mem_append.mp hcmem with h0 | h0
        · exact hc c h0
        · exact hnew c h0
      by_cases hnil : round_new closure (expand_env_clauses db last []) = []
      · refine ⟨closure, ?_⟩
        simp only [env_loop, hempty, if_neg, Bool.false_eq_true, not_false_iff]
        rw [hnil, List.append_nil]
        exact env_loop_nil db f closure
      · have hlen : closure.length + 1 ≤
            (closure ++ round_new closure (expand_env_clauses db last [])).length := by
          rw [List.length_append]
          have := List.length_pos.mpr hnil
          omega
        obtain ⟨r, hr⟩ := ih (closure ++ round_new closure (expand_env_clauses db last []))
          (round_new closure (expand_env_clauses db last []))
          (round_new_append_nodup _ _ hnodup) hclosure hnew (by omega)
        exact ⟨r, by simp only [env_loop, hempty, if_neg, Bool.false_eq_true, not_false_iff]; exact hr⟩

lemma env_closure_det (db : RustIrDatabase) (environment : Environment)
    {f1 f2 : Nat} {c1 c2 : List ProgramClause}
    (h1 : env_closure db environment f1 = some c1)
    (h2 : env_closure db environment f2 = some c2) : c1 = c2 := by
  unfold env_closure at h1 h2
  exact env_loop_det db h1 h2

/-! ### Helper facts about the synthesizer and the matcher -/

lemma push_auto_trait_impls_isSome (db : RustIrDatabase) (t : TraitId)
    (s : StructId) (vec : List ProgramClause)
    (hauto : (db.trait_datum t).is_auto_trait = true)
    (hone : (db.trait_datum t).binders.binders.length = 1) :
    (push_auto_trait_impls t s db vec).isSome := by
  by_cases himpl : db.impl_provided_for t s <;>
    simp [push_auto_trait_impls, hauto, hone, himpl]

lemma push_auto_trait_impls_append (db : RustIrDatabase) (t : TraitId)
    (s : StructId) (vec out : List ProgramClause)
    (h : push_auto_trait_impls t s db vec = some out) :
    ∃ suffix, out = vec ++ suffix := by
  by_cases hauto : (db.trait_datum t).is_auto_trait
  · by_cases hone : (db.trait_datum t).binders.binders.length = 1
    · by_cases himpl : db.impl_provided_for t s
      · simp [push_auto_trait_impls, hauto, hone, himpl] at h
        exact ⟨[], by rw [← h, List.append_nil]⟩
      · simp [push_auto_trait_impls, hauto, hone, himpl] at h
        exact ⟨_, h.symm⟩
    · simp [push_auto_trait_impls, hauto, hone] at h
  · simp [push_auto_trait_impls, hauto] at h

lemma foldl_impl_append (db : RustIrDatabase) (l : List ImplId) :
    ∀ (clauses : List ProgramClause),
      ∃ suffix, l.foldl (fun acc impl_id => acc ++ db.impl_clauses impl_id) clauses =
        clauses ++ suffix := by
  induction l with
  | nil => intro clauses; exact ⟨[], (List.append_nil clauses).symm⟩
  | cons a l ih =>
    intro clauses
    obtain ⟨s, hs⟩ := ih (clauses ++ db.impl_clauses a)
    exact ⟨db.impl_clauses a ++ s, by rw [List.foldl_cons, hs, List.append_assoc]⟩

lemma match_ty_append (db : RustIrDatabase) :
    ∀ (t : Ty) (clauses : List ProgramClause),
      ∃ suffix, match_ty db t clauses = clauses ++ suffix
  | .apply (.mk name _), clauses => by
    cases name with
    | typeKindId k => cases k <;> exact ⟨_, rfl⟩
    | placeholder idx => exact ⟨[], (List.append_nil clauses).symm⟩
    | associatedType tid => exact ⟨_, rfl⟩
  | .projection a ps, clauses => ⟨_, rfl⟩
  | .forAll n q, clauses => match_ty_append db q clauses
  | .unselectedProjection a ps, clauses => ⟨[], (List.append_nil clauses).symm⟩
  | .boundVar n, clauses => ⟨[], (List.append_nil clauses).symm⟩
  | .inferenceVar n, clauses => ⟨[], (List.append_nil clauses).symm⟩

lemma program_clauses_for_goal_eq (db : RustIrDatabase)
    (could_match : ProgramClause → DomainGoal → Bool)
    (environment : Environment) (goal : DomainGoal) (fuel : Nat)
    (vec : List ProgramClause)
    (hm : program_clauses_that_could_match db goal [] = some vec) :
    program_clauses_for_goal db could_match environment goal fuel =
      (program_clauses_for_env db environment vec fuel).map
        (fun v => v.filter (fun c => could_match c goal)) := by
  unfold program_clauses_for_goal
  rw [hm]
  dsimp only
  cases program_clauses_for_env db environment vec fuel <;> rfl

/-! ### The claims -/

/-- C2: for an auto trait (exactly one binder, self trait-ref naming the
trait itself) and a struct with no explicit impl reported, the synthesizer
appends exactly one clause: quantified over exactly the struct's declared
binders, consequence "the struct's self type implements the trait", and one
condition per declared field in declaration order, each "field type
implements the trait"; a struct with zero fields yields an empty condition
list (`List.map` over `[]`). -/
theorem claim_C2 (db : RustIrDatabase) (t : TraitId) (s : StructId)
    (vec : List ProgramClause)
    (hauto : (db.trait_datum t).is_auto_trait = true)
    (hone : (db.trait_datum t).binders.binders.length = 1)
    (hid : (db.trait_datum t).binders.value.trait_ref.trait_id = t)
    (hno : db.impl_provided_for t s = false) :
    push_auto_trait_impls t s db vec = some (vec ++
      [{ binders := (db.struct_datum s).binders.binders,
         value := {
           consequence := DomainGoal.holds (WhereClause.implemented
             { trait_id := t,
               parameters := [Parameter.ty
                 (Ty.apply (db.struct_datum s).binders.value.self_ty)] }),
           conditions := (db.struct_datum s).binders.value.fields.map
             (fun field_ty => DomainGoal.holds (WhereClause.implemented
               { trait_id := t, parameters := [Parameter.ty field_ty] })) } }]) := by
  simp [push_auto_trait_impls, Binders.map_ref, hauto, hone, hid, hno]

/-- Witness for C2 at the `Pair<T,U>`/`Marker` example: the synthesized
clause is `forall<T,U> { Pair<T,U>: Marker :- T: Marker, U: Marker }`. -/
theorem claim_C2_witness :
    push_auto_trait_impls 0 0 dbAuto [] = some ([] ++
      [{ binders := (dbAuto.struct_datum 0).binders.binders,
         value := {
           consequence := DomainGoal.holds (WhereClause.implemented
             { trait_id := 0,
               parameters := [Parameter.ty
                 (Ty.apply (dbAuto.struct_datum 0).binders.value.self_ty)] }),
           conditions := (dbAuto.struct_datum 0).binders.value.fields.map
             (fun field_ty => DomainGoal.holds (WhereClause.implemented
               { trait_id := 0, parameters := [Parameter.ty field_ty] })) } }]) :=
  claim_C2 dbAuto 0 0 [] rfl rfl rfl (by decide)

/-- C3: when the database reports an explicit (positive or negative) impl
for exactly this (auto trait, struct) pair, the synthesizer emits nothing:
the output clause list is returned unchanged. -/
theorem claim_C3 (db : RustIrDatabase) (t : TraitId) (s : StructId)
    (vec : List ProgramClause)
    (hauto : (db.trait_datum t).is_auto_trait = true)
    (hone : (db.trait_datum t).binders.binders.length = 1)
    (hyes : db.impl_provided_for t s = true) :
    push_auto_trait_impls t s db vec = some vec := by
  simp [push_auto_trait_impls, hauto, hone, hyes]

/-- Witness for C3: `dbAuto` reports an impl for struct id 1, so the
synthesizer returns its input unchanged. -/
theorem claim_C3_witness : push_auto_trait_impls 0 1 dbAuto [cA] = some [cA] :=
  claim_C3 dbAuto 0 1 [cA] rfl rfl (by decide)

/-- C5: the synthesizer aborts (returns `none`, the model of the Rust
`assert!` aborts) whenever the named trait is not auto or binds a number of
generic parameters different from one; under the precondition (auto, exactly
one binder) neither assertion fires and a value is returned. -/
theorem claim_C5 (db : RustIrDatabase) (t : TraitId) (s : StructId)
    (vec : List ProgramClause) :
    (((db.trait_datum t).is_auto_trait = false ∨
        (db.trait_datum t).binders.binders.length ≠ 1) →
      push_auto_trait_impls t s db vec = none) ∧
    ((db.trait_datum t).is_auto_trait = true →
      (db.trait_datum t).binders.binders.length = 1 →
      ∃ out, push_auto_trait_impls t s db vec = some out) := by
  constructor
  · rintro (h | h)
    · simp [push_auto_trait_impls, h]
    · by_cases hauto : (db.trait_datum t).is_auto_trait
      · simp [push_auto_trait_impls, hauto, h]
      · simp [push_auto_trait_impls, hauto]
  · intro hauto hone
    exact Option.isSome_iff_exists.mp
      (push_auto_trait_impls_isSome db t s vec hauto hone)

/-- Witness for C5: on `db0` trait 0 is not auto, so the synthesizer aborts;
on `dbAuto` the precondition holds and a value is returned. -/
theorem claim_C5_witness :
    push_auto_trait_impls 0 0 db0 [] = none ∧
    ∃ out, push_auto_trait_impls 0 0 dbAuto [] = some out :=
  ⟨(claim_C5 db0 0 0 []).1 (Or.inl rfl), (claim_C5 dbAuto 0 0 []).2 rfl rfl⟩

/-- C9: structurally inert shapes contribute zero database-derived clauses:
`FromEnv(..)` and `Compatible()` goals leave the clause list unchanged; in
type descent an applied type with a placeholder head, an unselected
projection, a bound variable and an inference variable contribute nothing,
while `ForAll` descends into its bound inner type; in particular the goal
`WellFormed(Ty(ForAll(..)))` whose quantified type has a placeholder head
descends through the quantifier, halts at the placeholder head and
contributes zero clauses. -/
theorem claim_C9 (db : RustIrDatabase) (clauses : List ProgramClause)
    (fe : FromEnv) (idx k n iv u : Nat) (ps qs : Params) (q : Ty) :
    program_clauses_that_could_match db (DomainGoal.fromEnv fe) clauses =
      some clauses ∧
    program_clauses_that_could_match db DomainGoal.compatible clauses =
      some clauses ∧
    match_ty db (Ty.apply (ApplicationTy.mk (TypeName.placeholder idx) ps))
      clauses = clauses ∧
    match_ty db (Ty.unselectedProjection u qs) clauses = clauses ∧
    match_ty db (Ty.boundVar n) clauses = clauses ∧
    match_ty db (Ty.inferenceVar iv) clauses = clauses ∧
    match_ty db (Ty.forAll k q) clauses = match_ty db q clauses ∧
    program_clauses_that_could_match db
      (DomainGoal.wellFormed (WellFormed.ty (Ty.forAll k
        (Ty.apply (ApplicationTy.mk (TypeName.placeholder idx) ps))))) clauses =
      some clauses :=
  ⟨rfl, rfl, rfl, rfl, rfl, rfl, rfl, rfl⟩

/-- C1 counterexample: for assumed clauses `{cA}` and the elaboration
relation `cA → cB`, `cB → cA` (database `dbAB`), the elaborator terminates
but returns `[cB, cA]`: the original assumed clause `cA` is re-derived and
included in the result, which is therefore not `{cB}`. -/
theorem claim_C1_counterexample :
    program_clauses_for_env dbAB ⟨[cA]⟩ [] 2 = some [cB, cA] ∧
    cA ∈ ([cB, cA] : List ProgramClause) ∧
    ([cB, cA] : List ProgramClause) ≠ [cB] :=
  ⟨by decide, by decide, by decide⟩

/-- C1 (amended): every clause the elaborator appends is derivable from the
assumed environment clauses by at least one elaboration step, but an
original assumed clause reappears in the result when it is itself
re-derived; in particular for assumed `{cA}` with relation `cA → cB`,
`cB → cA` the loop terminates and returns exactly `[cB, cA]`, not `[cB]`. -/
theorem claim_C1_amended (db : RustIrDatabase) (environment : Environment)
    (clauses : List ProgramClause) (fuel : Nat) (out : List ProgramClause)
    (h : program_clauses_for_env db environment clauses fuel = some out) :
    (∀ c ∈ out, c ∈ clauses ∨ EnvReachable db environment.clauses c) ∧
    program_clauses_for_env dbAB ⟨[cA]⟩ [] 2 = some [cB, cA] := by
  constructor
  · unfold program_clauses_for_env env_closure at h
    rcases Option.map_eq_some'.mp h with ⟨closure, hloop, hout⟩
    subst hout
    intro c hcmem
    rcases List.mem_append.mp hcmem with hcl | hcl
    · exact Or.inl hcl
    · refine Or.inr ?_
      have hseed : ∀ x ∈ expand_env_clauses db environment.clauses [],
          EnvReachable db environment.clauses x := by
        intro x hx
        rcases (mem_expand_env_clauses db environment.clauses [] x).mp hx with
          h0 | ⟨d, hd, hxd⟩
        · simp at h0
        · exact EnvReachable.base hd hxd
      exact env_loop_sound db (EnvReachable db environment.clauses)
        (fun c d hc hd => EnvReachable.step hc hd) fuel _ _ _ hseed hseed hloop c hcl
  · decide

/-- Witness for C1 (amended), instantiated at the `cA`/`cB` example. -/
theorem claim_C1_witness :
    (∀ c ∈ ([cB, cA] : List ProgramClause),
      c ∈ ([] : List ProgramClause) ∨ EnvReachable dbAB [cA] c) ∧
    program_clauses_for_env dbAB ⟨[cA]⟩ [] 2 = some [cB, cA] :=
  claim_C1_amended dbAB ⟨[cA]⟩ [] 2 [cB, cA] (by decide)

/-- C7: if every clause reachable from the assumed clauses by iterated
elaboration lies in some finite list `L`, then the fixpoint loop converges:
some fuel yields a result, and every larger fuel yields the same result
(the fuel is a device of this model, not a limit the engine imposes), so the
original unbounded loop terminates with the accumulated closure. -/
theorem claim_C7 (db : RustIrDatabase) (environment : Environment)
    (clauses : List ProgramClause) (L : List ProgramClause)
    (hfin : ∀ c, EnvReachable db environment.clauses c → c ∈ L) :
    ∃ fuel out, program_clauses_for_env db environment clauses fuel = some out ∧
      ∀ fuel2, fuel ≤ fuel2 →
        program_clauses_for_env db environment clauses fuel2 = some out := by
  have hseed : ∀ x ∈ expand_env_clauses db environment.clauses [],
      EnvReachable db environment.clauses x := by
    intro x hx
    rcases (mem_expand_env_clauses db environment.clauses [] x).mp hx with
      h0 | ⟨d, hd, hxd⟩
    · simp at h0
    · exact EnvReachable.base hd hxd
  obtain ⟨r, hr⟩ := env_loop_terminates db L (EnvReachable db environment.clauses)
    (fun c d hc hd => EnvReachable.step hc hd) hfin (L.length + 1)
    (expand_env_clauses db environment.clauses [])
    (expand_env_clauses db environment.clauses [])
    (expand_env_clauses_nodup db environment.clauses [] List.nodup_nil)
    hseed hseed (by omega)
  refine ⟨L.length + 1, clauses ++ r, ?_, ?_⟩
  · unfold program_clauses_for_env env_closure
    rw [hr, Option.map_some']
  · intro fuel2 hle
    unfold program_clauses_for_env env_closure
    rw [env_loop_mono db hle _ _ _ hr, Option.map_some']

/-- Witness for C7: with an empty elaboration relation nothing is reachable,
so the reachable set is contained in `[]` and the loop converges. -/
theorem claim_C7_witness :
    ∃ fuel out, program_clauses_for_env db0 ⟨[cA]⟩ [] fuel = some out ∧
      ∀ fuel2, fuel ≤ fuel2 →
        program_clauses_for_env db0 ⟨[cA]⟩ [] fuel2 = some out :=
  claim_C7 db0 ⟨[cA]⟩ [] [] (by
    intro c h
    induction h with
    | base hc hd => simp [db0] at hd
    | step hc hd ih => simp [db0] at hd)

/-- C4: whenever the matcher and the elaborator both produce (the latter
with enough fuel for its loop to converge), the entry point returns exactly
their union restricted by the could-match test: every returned clause
passes the test against the goal, and no clause of the union passing the
test is dropped. -/
theorem claim_C4 (db : RustIrDatabase)
    (could_match : ProgramClause → DomainGoal → Bool)
    (environment : Environment) (goal : DomainGoal) (fuel : Nat)
    (vec closure : List ProgramClause)
    (hmatch : program_clauses_that_could_match db goal [] = some vec)
    (henv : env_closure db environment fuel = some closure) :
    program_clauses_for_goal db could_match environment goal fuel =
      some ((vec ++ closure).filter (fun c => could_match c goal)) ∧
    (∀ c ∈ (vec ++ closure).filter (fun c => could_match c goal),
      could_match c goal = true) ∧
    (∀ c ∈ vec ++ closure, could_match c goal = true →
      c ∈ (vec ++ closure).filter (fun c => could_match c goal)) := by
  refine ⟨?_, ?_, ?_⟩
  · rw [program_clauses_for_goal_eq db could_match environment goal fuel vec hmatch]
    unfold program_clauses_for_env
    rw [henv, Option.map_some', Option.map_some']
  · intro c hc
    exact (List.mem_filter.mp hc).2
  · intro c hc hcm
    exact List.mem_filter.mpr ⟨hc, hcm⟩

/-- Witness for C4 at the elaboration example, with a could-match test that
keeps only `cB`: the matcher contributes nothing for `Compatible()`, the
elaborator contributes `[cB, cA]`, and the filter keeps exactly `cB`. -/
theorem claim_C4_witness :
    program_clauses_for_goal dbAB (fun c _ => decide (c = cB)) ⟨[cA]⟩
      DomainGoal.compatible 2 =
      some (([] ++ [cB, cA]).filter (fun c => decide (c = cB))) ∧
    (∀ c ∈ (([] : List ProgramClause) ++ [cB, cA]).filter
        (fun c => decide (c = cB)),
      decide (c = cB) = true) ∧
    (∀ c ∈ ([] : List ProgramClause) ++ [cB, cA], decide (c = cB) = true →
      c ∈ (([] : List ProgramClause) ++ [cB, cA]).filter
        (fun c => decide (c = cB))) :=
  claim_C4 dbAB (fun c _ => decide (c = cB)) ⟨[cA]⟩ DomainGoal.compatible 2
    [] [cB, cA] (by decide) (by decide)

/-- C8: the entry point is deterministic: for a fixed database, could-match
test, environment and goal, any two runs that produce a result (with any
fuels whose loops converge) produce the same clause list. -/
theorem claim_C8 (db : RustIrDatabase)
    (could_match : ProgramClause → DomainGoal → Bool)
    (environment : Environment) (goal : DomainGoal) (fuel1 fuel2 : Nat)
    (r1 r2 : List ProgramClause)
    (h1 : program_clauses_for_goal db could_match environment goal fuel1 = some r1)
    (h2 : program_clauses_for_goal db could_match environment goal fuel2 = some r2) :
    r1 = r2 := by
  cases hm : program_clauses_that_could_match db goal [] with
  | none =>
    unfold program_clauses_for_goal at h1
    rw [hm] at h1
    simp at h1
  | some vec =>
    rw [program_clauses_for_goal_eq db could_match environment goal fuel1 vec hm] at h1
    rw [program_clauses_for_goal_eq db could_match environment goal fuel2 vec hm] at h2
    rcases Option.map_eq_some'.mp h1 with ⟨v1, hv1, hr1⟩
    rcases Option.map_eq_some'.mp h2 with ⟨v2, hv2, hr2⟩
    unfold program_clauses_for_env at hv1 hv2
    rcases Option.map_eq_some'.mp hv1 with ⟨c1, hc1, hvc1⟩
    rcases Option.map_eq_some'.mp hv2 with ⟨c2, hc2, hvc2⟩
    have hcc := env_closure_det db environment hc1 hc2
    subst hcc
    subst hvc1
    subst hvc2
    subst hr1
    subst hr2
    rfl

/-- Witness for C8: two runs of the entry point on the elaboration example
with different (sufficient) fuels agree. -/
theorem claim_C8_witness : ([cB, cA] : List ProgramClause) = [cB, cA] :=
  claim_C8 dbAB (fun _ _ => true) ⟨[cA]⟩ DomainGoal.compatible 2 5 [cB, cA]
    [cB, cA] (by decide) (by decide)

/-- C6 counterexample: the matcher does abort for some trait reference: on
the goal `Holds(Implemented(tref))` with an empty parameter list for a
trait the database marks auto, the source indexes `parameters[0]` and
panics (modelled by `none`). -/
theorem claim_C6_counterexample :
    program_clauses_that_could_match dbAuto
      (DomainGoal.holds (WhereClause.implemented
        { trait_id := 0, parameters := [] })) [] = none := by
  decide

/-- C6 (amended): the matcher returns a clause sequence without aborting for
every domain goal, provided every `Implemented` trait reference on a trait
the database marks auto carries a type as its first (Self) parameter and the
database's auto traits bind exactly one generic parameter; inert sub-shapes
simply contribute no clauses. -/
theorem claim_C6_amended (db : RustIrDatabase) (goal : DomainGoal)
    (clauses : List ProgramClause)
    (hbinders : ∀ t, (db.trait_datum t).is_auto_trait = true →
      (db.trait_datum t).binders.binders.length = 1)
    (hself : ∀ trait_ref,
      goal = DomainGoal.holds (WhereClause.implemented trait_ref) →
      (db.trait_datum trait_ref.trait_id).is_auto_trait = true →
      ∃ t rest, trait_ref.parameters = Parameter.ty t :: rest) :
    ∃ out, program_clauses_that_could_match db goal clauses = some out := by
  cases goal with
  | holds wc =>
    cases wc with
    | implemented trait_ref =>
      by_cases hauto : (db.trait_datum trait_ref.trait_id).is_auto_trait
      · obtain ⟨ty0, rest, hparams⟩ := hself trait_ref rfl hauto
        refine Option.isSome_iff_exists.mp ?_
        cases ty0 with
        | apply a =>
          cases a with
          | mk name params =>
            cases name with
            | typeKindId k =>
              cases k with
              | structId sid =>
                have hpush := push_auto_trait_impls_isSome db trait_ref.trait_id
                  sid ((db.impls_for_trait trait_ref.trait_id).foldl
                    (fun acc impl_id => acc ++ db.impl_clauses impl_id) clauses)
                  hauto (hbinders _ hauto)
                simpa [program_clauses_that_could_match, hparams, hauto,
                  ApplicationTy.name] using hpush
              | typeId tid =>
                simp [program_clauses_that_could_match, hparams, hauto,
                  ApplicationTy.name]
              | traitId tid =>
                simp [program_clauses_that_could_match, hparams, hauto,
                  ApplicationTy.name]
            | placeholder idx =>
              simp [program_clauses_that_could_match, hparams, hauto,
                ApplicationTy.name]
            | associatedType tid =>
              simp [program_clauses_that_could_match, hparams, hauto,
                ApplicationTy.name]
        | projection aid ps =>
          simp [program_clauses_that_could_match, hparams, hauto]
        | unselectedProjection u ps =>
          simp [program_clauses_that_could_match, hparams, hauto]
        | forAll n q =>
          simp [program_clauses_that_could_match, hparams, hauto]
        | boundVar n =>
          simp [program_clauses_that_could_match, hparams, hauto]
        | inferenceVar n =>
          simp [program_clauses_that_could_match, hparams, hauto]
      · refine Option.isSome_iff_exists.mp ?_
        simp [program_clauses_that_could_match, hauto]
    | projectionEq p => exact ⟨_, rfl⟩
  | wellFormed wf => cases wf <;> exact ⟨_, rfl⟩
  | fromEnv fe => exact ⟨_, rfl⟩
  | normalize p => exact ⟨_, rfl⟩
  | unselectedNormalize n => exact ⟨_, rfl⟩
  | isUpstream t2 => exact ⟨_, rfl⟩
  | isFullyVisible t2 => exact ⟨_, rfl⟩
  | isLocal t2 => exact ⟨_, rfl⟩
  | downstreamType t2 => exact ⟨_, rfl⟩
  | inScope k2 => exact ⟨_, rfl⟩
  | localImplAllowed tr => exact ⟨_, rfl⟩
  | compatible => exact ⟨_, rfl⟩

/-- Witness for C6 (amended): `dbAuto`'s auto traits bind exactly one
parameter, and the goal `Compatible()` carries no trait reference, so the
matcher returns a result. -/
theorem claim_C6_witness :
    ∃ out, program_clauses_that_could_match dbAuto DomainGoal.compatible [] =
      some out :=
  claim_C6_amended dbAuto DomainGoal.compatible []
    (fun _ _ => rfl) (fun _ h => nomatch h)

/-- C10: every clause-producing operation that receives the running output
clause list is append-only: whatever it returns (when it returns), the
elements already present are unchanged, in their original order, as a prefix
of the result — the matcher dispatch, the type descent, the type-kind
dispatch and the auto-trait synthesizer. -/
theorem claim_C10 (db : RustIrDatabase) (goal : DomainGoal) (t : Ty)
    (k : TypeKindId) (tid : TraitId) (sid : StructId)
    (clauses : List ProgramClause) :
    (∀ out, program_clauses_that_could_match db goal clauses = some out →
      ∃ suffix, out = clauses ++ suffix) ∧
    (∃ suffix, match_ty db t clauses = clauses ++ suffix) ∧
    (∃ suffix, match_type_kind db k clauses = clauses ++ suffix) ∧
    (∀ out, push_auto_trait_impls tid sid db clauses = some out →
      ∃ suffix, out = clauses ++ suffix) := by
  refine ⟨?_, match_ty_append db t clauses, ?_, fun out h =>
    push_auto_trait_impls_append db tid sid clauses out h⟩
  · intro out h
    cases goal with
    | holds wc =>
      cases wc with
      | implemented trait_ref =>
        obtain ⟨s0, hs0⟩ :=
          foldl_impl_append db (db.impls_for_trait trait_ref.trait_id) clauses
        by_cases hauto : (db.trait_datum trait_ref.trait_id).is_auto_trait
        · rcases hp : trait_ref.parameters.head? with _ | p
          · simp [program_clauses_that_could_match, hauto, hp] at h
          · cases p with
            | lifetime lf =>
              simp [program_clauses_that_could_match, hauto, hp] at h
            | ty ty0 =>
              cases ty0 with
              | apply a =>
                cases a with
                | mk name params =>
                  cases name with
                  | typeKindId kk =>
                    cases kk with
                    | structId sid2 =>
                      simp only [program_clauses_that_could_match, hauto, hp,
                        ApplicationTy.name, if_true] at h
                      obtain ⟨s1, hs1⟩ :=
                        push_auto_trait_impls_append db trait_ref.trait_id sid2 _ out h
                      exact ⟨s0 ++ s1, by
                        rw [hs1, hs0, List.append_assoc]⟩
                    | typeId tid2 =>
                      simp [program_clauses_that_could_match, hauto, hp,
                        ApplicationTy.name] at h
                      exact ⟨s0, by rw [← h, hs0]⟩
                    | traitId tid2 =>
                      simp [program_clauses_that_could_match, hauto, hp,
                        ApplicationTy.name] at h
                      exact ⟨s0, by rw [← h, hs0]⟩
                  | placeholder idx =>
                    simp [program_clauses_that_could_match, hauto, hp,
                      ApplicationTy.name] at h
                    exact ⟨s0, by rw [← h, hs0]⟩
                  | associatedType tid2 =>
                    simp [program_clauses_that_could_match, hauto, hp,
                      ApplicationTy.name] at h
                    exact ⟨s0, by rw [← h, hs0]⟩
              | projection aid ps =>
                simp [program_clauses_that_could_match, hauto, hp] at h
                exact ⟨s0, by rw [← h, hs0]⟩
              | unselectedProjection u ps =>
                simp [program_clauses_that_could_match, hauto, hp] at h
                exact ⟨s0, by rw [← h, hs0]⟩
              | forAll n q =>
                simp [program_clauses_that_could_match, hauto, hp] at h
                exact ⟨s0, by rw [← h, hs0]⟩
              | boundVar n =>
                simp [program_clauses_that_could_match, hauto, hp] at h
                exact ⟨s0, by rw [← h, hs0]⟩
              | inferenceVar n =>
                simp [program_clauses_that_could_match, hauto, hp] at h
                exact ⟨s0, by rw [← h, hs0]⟩
        · simp [program_clauses_that_could_match, hauto] at h
          exact ⟨s0, by rw [← h, hs0]⟩
      | projectionEq p =>
        exact ⟨_, (Option.some_inj.mp h).symm⟩
    | wellFormed wf =>
      cases wf with
      | trait tr => exact ⟨_, (Option.some_inj.mp h).symm⟩
      | ty ty2 =>
        obtain ⟨s, hs⟩ := match_ty_append db ty2 clauses
        exact ⟨s, by rw [← Option.some_inj.mp h, hs]⟩
    | fromEnv fe =>
      exact ⟨[], by rw [← Option.some_inj.mp h, List.append_nil]⟩
    | normalize p => exact ⟨_, (Option.some_inj.mp h).symm⟩
    | unselectedNormalize n =>
      obtain ⟨s, hs⟩ := match_ty_append db n.ty clauses
      exact ⟨s, by rw [← Option.some_inj.mp h, hs]⟩
    | isUpstream ty2 =>
      obtain ⟨s, hs⟩ := match_ty_append db ty2 clauses
      exact ⟨s, by rw [← Option.some_inj.mp h, hs]⟩
    | isFullyVisible ty2 =>
      obtain ⟨s, hs⟩ := match_ty_append db ty2 clauses
      exact ⟨s, by rw [← Option.some_inj.mp h, hs]⟩
    | isLocal ty2 =>
      obtain ⟨s, hs⟩ := match_ty_append db ty2 clauses
      exact ⟨s, by rw [← Option.some_inj.mp h, hs]⟩
    | downstreamType ty2 =>
      obtain ⟨s, hs⟩ := match_ty_append db ty2 clauses
      exact ⟨s, by rw [← Option.some_inj.mp h, hs]⟩
    | inScope k2 =>
      obtain ⟨s, hs⟩ := (by
        cases k2 with
        | typeId i => exact ⟨_, rfl⟩
        | traitId i => exact ⟨_, rfl⟩
        | structId i => exact ⟨_, rfl⟩ :
          ∃ suffix, match_type_kind db k2 clauses = clauses ++ suffix)
      exact ⟨s, by rw [← Option.some_inj.mp h, hs]⟩
    | localImplAllowed tr => exact ⟨_, (Option.some_inj.mp h).symm⟩
    | compatible =>
      exact ⟨[], by rw [← Option.some_inj.mp h, List.append_nil]⟩
  · cases k with
    | typeId i => exact ⟨_, rfl⟩
    | traitId i => exact ⟨_, rfl⟩
    | structId i => exact ⟨_, rfl⟩

/-- Witness for C10, exercising the matcher conjunct at a concrete run. -/
theorem claim_C10_witness :
    ∃ suffix, ([cA] : List ProgramClause) = [cA] ++ suffix :=
  (claim_C10 db0 DomainGoal.compatible (Ty.boundVar 0) (TypeKindId.traitId 0)
    0 0 [cA]).1 [cA] rfl

end Chalk
